import Mathlib

/-!
Verification of the text-transformation primitives of
src/native_extensions/src/lib.rs (minimal_browser native extensions).

The file shallowly embeds the five exported functions:
  extract_url_from_text, find_all_patterns, fast_string_contains,
  base64_encode_optimized, markdown_to_html
together with the fragment of the regex engine they rely on
(compilation of a pattern string to an AST, and leftmost-first
matching with the span of capture group 1).

Strings are modelled through their character lists; `to_lowercase`
is modelled as ASCII lowercasing (the spec restricts case folding to
"ASCII-safe lowercasing", and all concrete inputs are ASCII, where
Rust's to_lowercase agrees).
-/

/-- ASCII lowercasing of one character, as performed by the source's
to_lowercase on ASCII input (and identical to core Char.toLower). -/
def lowerChar (c : Char) : Char :=
  if 65 ≤ c.toNat ∧ c.toNat ≤ 90 then Char.ofNat (c.toNat + 32) else c

/-- Lowercase a string, modelling text.to_lowercase() from the source. -/
def strToLower (s : String) : String :=
  ⟨s.data.map lowerChar⟩

/-- The substring of s spanning character positions i (inclusive) to
j (exclusive), modelling m.as_str() for a match span. -/
def sliceStr (s : String) (i j : Nat) : String :=
  ⟨(s.data.drop i).take (j - i)⟩

/-- Substring containment on character lists, modelling str::contains:
the needle occurs starting at some position of the haystack. -/
def containsSub (hay needle : List Char) : Bool :=
  hay.tails.any (fun t => needle.isPrefixOf t)

/-- Embedding of fast_string_contains (src/native_extensions/src/lib.rs,
lines 73-76): lowercase the text once, then test whether any keyword of
the set occurs as a substring.  The HashSet argument is modelled as a
list of keywords; the result is an existence check, so order and
duplicates are irrelevant. -/
def fast_string_contains (text : String) (keywords : List String) : Bool :=
  let textLower := strToLower text
  keywords.any (fun keyword => containsSub textLower.data keyword.data)

/- ### Markdown normalizer

markdown_to_html (lines 104-114 of the source) runs two replace_all
passes.  Pass 1 replaces every leftmost, lazy occurrence of
star-star content star-star by a strong wrapper; pass 2, on the output
of pass 1, replaces every leftmost lazy occurrence of
star content star by an em wrapper.  The lazy dot of the source
patterns matches any character except a newline.  Both passes are
embedded directly: at each position the engine tries to match the
opening delimiter and then the shortest newline-free content followed
by the closing delimiter; on failure it emits one character and
retries at the next position, exactly like leftmost scanning. -/

/-- Find the lazy close for the bold pattern: split off the shortest
newline-free prefix that is followed by two asterisks. -/
def findCloseSS : List Char → Option (List Char × List Char)
  | '*' :: '*' :: rest => some ([], rest)
  | c :: cs =>
    if c = '\n' then none
    else (findCloseSS cs).map (fun pr => (c :: pr.1, pr.2))
  | [] => none

/-- Find the lazy close for the italic pattern: split off the shortest
newline-free prefix that is followed by one asterisk. -/
def findCloseS : List Char → Option (List Char × List Char)
  | '*' :: rest => some ([], rest)
  | c :: cs =>
    if c = '\n' then none
    else (findCloseS cs).map (fun pr => (c :: pr.1, pr.2))
  | [] => none

/-- One fueled pass of replace_all for the bold pattern. -/
def boldAux : Nat → List Char → List Char
  | 0, l => l
  | _ + 1, [] => []
  | f + 1, '*' :: '*' :: rest =>
    match findCloseSS rest with
    | some (content, rest2) =>
      "<strong>".data ++ content ++ "</strong>".data ++ boldAux f rest2
    | none => '*' :: boldAux f ('*' :: rest)
  | f + 1, c :: cs => c :: boldAux f cs

/-- One fueled pass of replace_all for the italic pattern. -/
def italAux : Nat → List Char → List Char
  | 0, l => l
  | _ + 1, [] => []
  | f + 1, '*' :: rest =>
    match findCloseS rest with
    | some (content, rest2) =>
      "<em>".data ++ content ++ "</em>".data ++ italAux f rest2
    | none => '*' :: italAux f rest
  | f + 1, c :: cs => c :: italAux f cs

/-- Pass 1 of markdown_to_html: bold replacement. -/
def boldPass (s : String) : String :=
  ⟨boldAux (s.data.length + 1) s.data⟩

/-- Pass 2 of markdown_to_html: italic replacement. -/
def italicPass (s : String) : String :=
  ⟨italAux (s.data.length + 1) s.data⟩

/-- Embedding of markdown_to_html (lines 104-114 of the source): the
italic pass applied to the output of the bold pass. -/
def markdown_to_html (text : String) : String :=
  let text1 := boldPass text
  let text2 := italicPass text1
  text2

/- ### Regex engine

extract_url_from_text and find_all_patterns rely on the regex crate.
The fragment they use is embedded here: a pattern string compiles to an
AST (or fails with a syntax error, mirroring Regex::new), and matching
is leftmost-first with greedy repetition, the search order of a
backtracking engine, which is the order of preference the regex crate
documents for captures.  Positions are character indices. -/

/-- Regex AST.  cls is a set of character ranges with a negation flag;
star is greedy repetition; group records the capture-group index. -/
inductive RE where
  | eps : RE
  | cls : List (Char × Char) → Bool → RE
  | seq : RE → RE → RE
  | alt : RE → RE → RE
  | star : RE → RE
  | group : Nat → RE → RE
deriving DecidableEq

/-- Opening-brace character, kept symbolic. -/
def braceL : Char := Char.ofNat 123

/-- Closing-brace character, kept symbolic. -/
def braceR : Char := Char.ofNat 125

/-- Character ranges matched by the whitespace class of the engine
(Unicode White_Space, as the regex crate defines it). -/
def wsRanges : List (Char × Char) :=
  [(Char.ofNat 9, Char.ofNat 13), (' ', ' '), (Char.ofNat 133, Char.ofNat 133),
   (Char.ofNat 160, Char.ofNat 160), (Char.ofNat 5760, Char.ofNat 5760),
   (Char.ofNat 8192, Char.ofNat 8202), (Char.ofNat 8232, Char.ofNat 8233),
   (Char.ofNat 8239, Char.ofNat 8239), (Char.ofNat 8287, Char.ofNat 8287),
   (Char.ofNat 12288, Char.ofNat 12288)]

/-- Character ranges matched by the word class of the engine
(restricted to ASCII word characters). -/
def wordRanges : List (Char × Char) :=
  [('a', 'z'), ('A', 'Z'), ('0', '9'), ('_', '_')]

/-- Does character c satisfy the class given by ranges and negation flag. -/
def matchCls (ranges : List (Char × Char)) (neg : Bool) (c : Char) : Bool :=
  let inR := ranges.any (fun p => decide (p.1 ≤ c) && decide (c ≤ p.2))
  if neg then !inR else inR

/-- Numeric value of a digit string. -/
def digitsVal (ds : List Char) : Nat :=
  ds.foldl (fun acc c => acc * 10 + (c.toNat - 48)) 0

/-- n-fold sequential repetition of a regex. -/
def repeatExact : Nat → RE → RE
  | 0, _ => RE.eps
  | n + 1, r => RE.seq r (repeatExact n r)

/-- n-fold optional (greedy) repetition of a regex. -/
def repeatOpt : Nat → RE → RE
  | 0, _ => RE.eps
  | n + 1, r => RE.seq (RE.alt r RE.eps) (repeatOpt n r)

/-- Parse a counted repetition, after the opening brace. -/
def pBounds (r : RE) (tl : List Char) : Except String (RE × List Char) :=
  let ds := tl.takeWhile (fun c => c.isDigit)
  let rest := tl.dropWhile (fun c => c.isDigit)
  if ds.isEmpty then .error "invalid repetition count"
  else
    match rest with
    | c :: tl2 =>
      if c = braceR then .ok (repeatExact (digitsVal ds) r, tl2)
      else if c = ',' then
        match tl2 with
        | c2 :: tl3 =>
          if c2 = braceR then .ok (RE.seq (repeatExact (digitsVal ds) r) (RE.star r), tl3)
          else
            let ds2 := tl2.takeWhile (fun ch => ch.isDigit)
            let rest2 := tl2.dropWhile (fun ch => ch.isDigit)
            match rest2 with
            | c3 :: tl4 =>
              if c3 = braceR ∧ ¬ ds2.isEmpty then
                if digitsVal ds2 < digitsVal ds then .error "invalid repetition range"
                else .ok (RE.seq (repeatExact (digitsVal ds) r)
                            (repeatOpt (digitsVal ds2 - digitsVal ds) r), tl4)
              else .error "invalid repetition"
            | [] => .error "invalid repetition"
        | [] => .error "invalid repetition"
      else .error "invalid repetition"
    | [] => .error "invalid repetition"

/-- Parse an optional postfix quantifier applied to atom r.  Lazy
quantifier forms are outside the embedded dialect. -/
def pQuant (r : RE) (cs : List Char) : Except String (RE × List Char) :=
  match cs with
  | [] => .ok (r, cs)
  | c :: tl =>
    if c = '*' then
      match tl with
      | '?' :: _ => .error "lazy quantifiers unsupported"
      | _ => .ok (RE.star r, tl)
    else if c = '+' then
      match tl with
      | '?' :: _ => .error "lazy quantifiers unsupported"
      | _ => .ok (RE.seq r (RE.star r), tl)
    else if c = '?' then
      match tl with
      | '?' :: _ => .error "lazy quantifiers unsupported"
      | _ => .ok (RE.alt r RE.eps, tl)
    else if c = braceL then pBounds r tl
    else .ok (r, cs)

/-- Parse an escape sequence, after the backslash. -/
def pEscape (cs : List Char) : Except String (RE × List Char) :=
  match cs with
  | [] => .error "incomplete escape"
  | c :: tl =>
    if c = 's' then .ok (RE.cls wsRanges false, tl)
    else if c = 'S' then .ok (RE.cls wsRanges true, tl)
    else if c = 'd' then .ok (RE.cls [('0', '9')] false, tl)
    else if c = 'D' then .ok (RE.cls [('0', '9')] true, tl)
    else if c = 'w' then .ok (RE.cls wordRanges false, tl)
    else if c = 'W' then .ok (RE.cls wordRanges true, tl)
    else if c = 'n' then .ok (RE.cls [('\n', '\n')] false, tl)
    else if c = 't' then .ok (RE.cls [('\t', '\t')] false, tl)
    else if c = 'r' then .ok (RE.cls [('\r', '\r')] false, tl)
    else if "\\.*+?()[]|/^$-".data.contains c ∨ c = braceL ∨ c = braceR then
      .ok (RE.cls [(c, c)] false, tl)
    else .error "unsupported escape"

/-- Parse the items of a bracketed character class, accumulating ranges,
until the closing bracket. -/
def pClassItems : Nat → List Char → List (Char × Char) →
    Except String (List (Char × Char) × List Char)
  | 0, _, _ => .error "class too long"
  | f + 1, cs, acc =>
    match cs with
    | [] => .error "unclosed character class"
    | ']' :: tl => .ok (acc, tl)
    | '\\' :: c2 :: tl =>
      if c2 = 's' then pClassItems f tl (acc ++ wsRanges)
      else if c2 = 'd' then pClassItems f tl (acc ++ [('0', '9')])
      else if c2 = 'w' then pClassItems f tl (acc ++ wordRanges)
      else pClassItems f tl (acc ++ [(c2, c2)])
    | a :: '-' :: b :: tl =>
      if b = ']' then .ok (acc ++ [(a, a), ('-', '-')], tl)
      else if a ≤ b then pClassItems f tl (acc ++ [(a, b)])
      else .error "invalid class range"
    | a :: tl => pClassItems f tl (acc ++ [(a, a)])

/-- Parse a bracketed character class, after the opening bracket. -/
def pClass (f : Nat) (cs : List Char) : Except String (RE × List Char) :=
  match cs with
  | '^' :: tl => (pClassItems f tl []).map (fun pr => (RE.cls pr.1 true, pr.2))
  | _ => (pClassItems f cs []).map (fun pr => (RE.cls pr.1 false, pr.2))

mutual

/-- Parse an alternation; g is the next capture-group number. -/
def pAlt : Nat → List Char → Nat → Except String (RE × List Char × Nat)
  | 0, _, _ => .error "pattern too deep"
  | f + 1, cs, g =>
    match pSeq f cs g with
    | .error e => .error e
    | .ok (r1, rest, g1) =>
      match rest with
      | '|' :: tl =>
        match pAlt f tl g1 with
        | .error e => .error e
        | .ok (r2, rest2, g2) => .ok (RE.alt r1 r2, rest2, g2)
      | _ => .ok (r1, rest, g1)
termination_by structural f => f

/-- Parse a concatenation of repeated atoms. -/
def pSeq : Nat → List Char → Nat → Except String (RE × List Char × Nat)
  | 0, _, _ => .error "pattern too deep"
  | f + 1, cs, g =>
    match cs with
    | [] => .ok (RE.eps, [], g)
    | c :: _ =>
      if c = ')' ∨ c = '|' then .ok (RE.eps, cs, g)
      else
        match pRep f cs g with
        | .error e => .error e
        | .ok (r1, rest, g1) =>
          match pSeq f rest g1 with
          | .error e => .error e
          | .ok (r2, rest2, g2) => .ok (RE.seq r1 r2, rest2, g2)
termination_by structural f => f

/-- Parse one atom with its optional quantifier. -/
def pRep : Nat → List Char → Nat → Except String (RE × List Char × Nat)
  | 0, _, _ => .error "pattern too deep"
  | f + 1, cs, g =>
    match pAtom f cs g with
    | .error e => .error e
    | .ok (r, rest, g1) =>
      match pQuant r rest with
      | .error e => .error e
      | .ok (r2, rest2) => .ok (r2, rest2, g1)
termination_by structural f => f

/-- Parse one atom: group, class, escape, dot or literal. -/
def pAtom : Nat → List Char → Nat → Except String (RE × List Char × Nat)
  | 0, _, _ => .error "pattern too deep"
  | f + 1, cs, g =>
    match cs with
    | [] => .error "unexpected end of pattern"
    | '(' :: '?' :: ':' :: tl =>
      match pAlt f tl g with
      | .error e => .error e
      | .ok (r, rest, g1) =>
        match rest with
        | ')' :: tl2 => .ok (r, tl2, g1)
        | _ => .error "unclosed group"
    | '(' :: '?' :: _ => .error "unsupported group kind"
    | '(' :: tl =>
      match pAlt f tl (g + 1) with
      | .error e => .error e
      | .ok (r, rest, g1) =>
        match rest with
        | ')' :: tl2 => .ok (RE.group g r, tl2, g1)
        | _ => .error "unclosed group"
    | '[' :: tl =>
      match pClass (tl.length + 1) tl with
      | .error e => .error e
      | .ok (r, rest) => .ok (r, rest, g)
    | '\\' :: tl =>
      match pEscape tl with
      | .error e => .error e
      | .ok (r, rest) => .ok (r, rest, g)
    | '.' :: tl => .ok (RE.cls [('\n', '\n')] true, tl, g)
    | c :: tl =>
      if c = '*' ∨ c = '+' ∨ c = '?' then .error "repetition operator missing expression"
      else if c = braceL then .error "unsupported repetition"
      else if c = '^' ∨ c = '$' then .error "unsupported anchor"
      else .ok (RE.cls [(c, c)] false, tl, g)
termination_by structural f => f

end

/-- Compile a pattern string to a regex AST, modelling Regex::new:
returns the AST or a syntax-error message. -/
def parseRegex (pat : String) : Except String RE :=
  match pAlt (4 * (pat.data.length + 1)) pat.data 1 with
  | .error e => .error e
  | .ok (r, [], _) => .ok r
  | .ok (_, _ :: _, _) => .error "unexpected character in pattern"

/-- Structural size of a regex, used to budget matching fuel. -/
def reSize : RE → Nat
  | RE.eps => 1
  | RE.cls _ _ => 1
  | RE.seq r1 r2 => reSize r1 + reSize r2 + 1
  | RE.alt r1 r2 => reSize r1 + reSize r2 + 1
  | RE.star r => reSize r + 1
  | RE.group _ r => reSize r + 1

/-- Backtracking matcher.  mtch fuel re s pos g1 enumerates, in
preference order, the outcomes of matching re at position pos of s;
an outcome is the end position together with the recorded span of
capture group 1.  Greedy repetition prefers more iterations and skips
zero-width iterations. -/
def mtch : Nat → RE → List Char → Nat → Option (Nat × Nat) →
    List (Nat × Option (Nat × Nat))
  | 0, _, _, _, _ => []
  | _ + 1, RE.eps, _, pos, g => [(pos, g)]
  | _ + 1, RE.cls rs neg, s, pos, g =>
    match s[pos]? with
    | some c => if matchCls rs neg c then [(pos + 1, g)] else []
    | none => []
  | f + 1, RE.seq r1 r2, s, pos, g =>
    (mtch f r1 s pos g).flatMap (fun pg => mtch f r2 s pg.1 pg.2)
  | f + 1, RE.alt r1 r2, s, pos, g =>
    mtch f r1 s pos g ++ mtch f r2 s pos g
  | f + 1, RE.star r, s, pos, g =>
    ((mtch f r s pos g).flatMap
      (fun pg => if pg.1 ≤ pos then [] else mtch f (RE.star r) s pg.1 pg.2)) ++ [(pos, g)]
  | f + 1, RE.group idx r, s, pos, g =>
    (mtch f r s pos g).map (fun pg => if idx = 1 then (pg.1, some (pos, pg.1)) else pg)

/-- Fuel budget for the matcher, ample for its recursion depth. -/
def reFuel (re : RE) (s : List Char) : Nat :=
  (reSize re + 1) * (s.length + 2)

/-- Scan successive start positions, leftmost first; at each start take
the matcher's preferred outcome.  rem counts the starts still to try. -/
def scanFrom (fuel : Nat) (re : RE) (s : List Char) : Nat → Nat →
    Option (Nat × Nat × Option (Nat × Nat))
  | start, 0 =>
    match mtch fuel re s start none with
    | pg :: _ => some (start, pg.1, pg.2)
    | [] => none
  | start, rem + 1 =>
    match mtch fuel re s start none with
    | pg :: _ => some (start, pg.1, pg.2)
    | [] => scanFrom fuel re s (start + 1) rem

/-- Embedding of Regex::captures: the leftmost-first match of re in s,
as (start, end, span of capture group 1). -/
def captures (re : RE) (s : List Char) : Option (Nat × Nat × Option (Nat × Nat)) :=
  scanFrom (reFuel re s) re s 0 s.length

/-- Embedding of extract_url_from_text (lines 23-31 of the source):
compile the pattern (propagating the compilation failure), run captures
on the lowercased text, then return capture group 1 of the match, if
any; the whole match is never used as a fallback. -/
def extract_url_from_text (text pattern : String) :
    Except String (Option String) :=
  match parseRegex pattern with
  | .error e => .error ("Invalid regex pattern: " ++ e)
  | .ok re =>
    let low := strToLower text
    .ok ((captures re low.data).bind
      (fun r => r.2.2.map (fun sp => sliceStr low sp.1 sp.2)))

/-- Iteration of find_all_patterns over the pattern list: compile each
pattern (an invalid one aborts the whole call with a message naming the
pattern), and for each compiled pattern that matches push the pair of
the pattern and the whole first match (group 0). -/
def findAllAux (low : String) : List String →
    Except String (List (String × String))
  | [] => .ok []
  | p :: ps =>
    match parseRegex p with
    | .error e => .error ("Invalid regex pattern " ++ p ++ ": " ++ e)
    | .ok re =>
      match captures re low.data with
      | some r => (findAllAux low ps).map (fun rest => (p, sliceStr low r.1 r.2.1) :: rest)
      | none => findAllAux low ps

/-- Embedding of find_all_patterns (lines 42-59 of the source):
lowercase the text once, then scan every pattern in order. -/
def find_all_patterns (text : String) (patterns : List String) :
    Except String (List (String × String)) :=
  findAllAux (strToLower text) patterns

/- ### Byte-to-text codec

base64_encode_optimized (lines 89-91 of the source) delegates to
base64::encode, the standard base64 alphabet with padding.  Bytes are
modelled as natural numbers below 256. -/

/-- The standard base64 alphabet. -/
def b64Alphabet : List Char :=
  "ABCDEFGHIJKLMNOPQRSTUVWXYZabcdefghijklmnopqrstuvwxyz0123456789+/".data

/-- Character for a six-bit value. -/
def sextetChar (n : Nat) : Char :=
  b64Alphabet.getD n 'A'

/-- Standard base64 encoding of a byte list: three bytes become four
alphabet characters; a final chunk of one or two bytes is padded. -/
def b64EncodeL : List Nat → List Char
  | b1 :: b2 :: b3 :: rest =>
    sextetChar (b1 / 4) :: sextetChar ((b1 % 4) * 16 + b2 / 16) ::
      sextetChar ((b2 % 16) * 4 + b3 / 64) :: sextetChar (b3 % 64) :: b64EncodeL rest
  | [b1, b2] =>
    [sextetChar (b1 / 4), sextetChar ((b1 % 4) * 16 + b2 / 16),
     sextetChar ((b2 % 16) * 4), '=']
  | [b1] =>
    [sextetChar (b1 / 4), sextetChar ((b1 % 4) * 16), '=', '=']
  | [] => []

/-- Embedding of base64_encode_optimized (lines 89-91 of the source). -/
def base64_encode_optimized (data : List Nat) : String :=
  ⟨b64EncodeL data⟩

/-- Six-bit value of an alphabet character, if any. -/
def sextetOfChar (c : Char) : Option Nat :=
  b64Alphabet.findIdx? (fun a => a = c)

/-- Modelled from the spec: a standard base64 decoder.  The source
exposes no decoder (decoding is declared out of scope), so this is the
spec-side decoder used to state the round-trip property: four alphabet
characters yield three bytes, and a final padded chunk yields one or
two bytes. -/
def b64DecodeL : List Char → Option (List Nat)
  | c1 :: c2 :: c3 :: c4 :: rest =>
    if rest.isEmpty then
      if c3 = '=' ∧ c4 = '=' then
        (sextetOfChar c1).bind (fun s1 => (sextetOfChar c2).map (fun s2 =>
          [s1 * 4 + s2 / 16]))
      else if c4 = '=' then
        (sextetOfChar c1).bind (fun s1 => (sextetOfChar c2).bind (fun s2 =>
          (sextetOfChar c3).map (fun s3 =>
            [s1 * 4 + s2 / 16, (s2 % 16) * 16 + s3 / 4])))
      else
        (sextetOfChar c1).bind (fun s1 => (sextetOfChar c2).bind (fun s2 =>
          (sextetOfChar c3).bind (fun s3 => (sextetOfChar c4).map (fun s4 =>
            [s1 * 4 + s2 / 16, (s2 % 16) * 16 + s3 / 4, (s3 % 4) * 64 + s4]))))
    else
      (sextetOfChar c1).bind (fun s1 => (sextetOfChar c2).bind (fun s2 =>
        (sextetOfChar c3).bind (fun s3 => (sextetOfChar c4).bind (fun s4 =>
          (b64DecodeL rest).map (fun bs =>
            (s1 * 4 + s2 / 16) :: ((s2 % 16) * 16 + s3 / 4) ::
              ((s3 % 4) * 64 + s4) :: bs)))))
  | [] => some []
  | _ => none

/-- The bytes of the ASCII string Hello, World! used by the source's
base64 test. -/
def helloBytes : List Nat :=
  [72, 101, 108, 108, 111, 44, 32, 87, 111, 114, 108, 100, 33]

/- ### Helper lemmas about lowercasing -/

/-- toNat of Char.ofNat for valid code points below the surrogate range. -/
theorem charOfNat_toNat (n : Nat) (h : n < 55296) : (Char.ofNat n).toNat = n := by
  rw [Char.ofNat, dif_pos (Or.inl h : Nat.isValidChar n)]
  rfl

/-- Char.toNat is below the Unicode bound. -/
theorem char_toNat_lt (c : Char) : c.toNat < 1114112 := by
  rcases c.valid with h | h
  · exact Nat.lt_trans h (by decide)
  · exact h.2

/-- The result of lowerChar is never an uppercase ASCII letter. -/
theorem lowerChar_not_upper (c : Char) :
    ¬(65 ≤ (lowerChar c).toNat ∧ (lowerChar c).toNat ≤ 90) := by
  by_cases h : 65 ≤ c.toNat ∧ c.toNat ≤ 90
  · rw [lowerChar, if_pos h, charOfNat_toNat _ (by omega)]
    omega
  · rw [lowerChar, if_neg h]
    exact h

/-- Lowercasing a character twice is the same as lowercasing it once. -/
theorem lowerChar_idem (c : Char) : lowerChar (lowerChar c) = lowerChar c := by
  have h := lowerChar_not_upper c
  rw [lowerChar, if_neg h]

/-- Mapping lowerChar twice over a character list is mapping it once. -/
theorem map_lowerChar_idem (l : List Char) :
    (l.map lowerChar).map lowerChar = l.map lowerChar := by
  induction l with
  | nil => rfl
  | cons c cs ih => simp [lowerChar_idem, ih]

/-- Lowercasing a string is idempotent. -/
theorem strToLower_idem (s : String) : strToLower (strToLower s) = strToLower s :=
  congrArg String.mk (map_lowerChar_idem s.data)

/-- A slice of an already-lowercased string is itself lowercase. -/
theorem strToLower_slice (t : String) (i j : Nat) :
    strToLower (sliceStr (strToLower t) i j) = sliceStr (strToLower t) i j := by
  unfold strToLower sliceStr
  refine congrArg String.mk ?_
  show ((((t.data.map lowerChar).drop i).take (j - i)).map lowerChar) = _
  rw [← List.map_drop, ← List.map_take, map_lowerChar_idem]

/- ### C2: markdown_to_html is two sequential passes -/

/-- C2: markdown_to_html equals the italic pass applied to the output of
the bold pass, the concrete bold, italic and mixed scenarios produce the
expected wrappers, and an unclosed delimiter is left verbatim (the
function is total, so it never fails). -/
theorem markdown_to_html_spec :
    (∀ t : String, markdown_to_html t = italicPass (boldPass t)) ∧
    markdown_to_html "**bold**" = "<strong>bold</strong>" ∧
    markdown_to_html "*italic*" = "<em>italic</em>" ∧
    markdown_to_html "**a** and *b*" = "<strong>a</strong> and <em>b</em>" ∧
    markdown_to_html "*unclosed" = "*unclosed" :=
  ⟨fun _ => rfl, by decide, by decide, by decide, by decide⟩

/- ### C7, C8, C9: keyword detector -/

/-- C7: fast_string_contains is monotone in the keyword set: adding a
keyword can only turn the result from false to true, never from true to
false. -/
theorem fast_string_contains_mono (text k : String) (ks : List String)
    (h : fast_string_contains text ks = true) :
    fast_string_contains text (k :: ks) = true := by
  simp only [fast_string_contains, List.any_cons] at h ⊢
  rw [h, Bool.or_true]

/-- C7 witness at a concrete input. -/
theorem fast_string_contains_mono_witness :
    fast_string_contains "create a todo list" ["make", "create"] = true :=
  fast_string_contains_mono "create a todo list" "make" ["create"] (by decide)

/-- C8: fast_string_contains is total (it is a Lean function into Bool),
returns false on the empty keyword set, and on empty text returns true
exactly when the empty-string keyword is present. -/
theorem fast_string_contains_edge (text : String) (ks : List String) :
    fast_string_contains text [] = false ∧
    (fast_string_contains "" ks = true ↔ "" ∈ ks) := by
  constructor
  · rfl
  · simp only [fast_string_contains, List.any_eq_true]
    constructor
    · rintro ⟨k, hk, hp⟩
      have hp2 : containsSub [] k.data = true := hp
      simp only [containsSub, List.tails, List.any_cons, List.any_nil,
        Bool.or_false, List.isPrefixOf_iff_prefix, List.prefix_nil,
        decide_eq_true_eq] at hp2
      cases k with
      | mk l =>
        simp only at hp2
        subst hp2
        exact hk
    · intro hk
      exact ⟨"", hk, by decide⟩

/-- C9: the detector does not normalize keyword casing: a keyword that
contains an uppercase ASCII letter is compared verbatim against the
lowercased text, so it is never found. -/
theorem fast_string_contains_case (text k : String) (c : Char)
    (hc : c ∈ k.data) (h1 : 65 ≤ c.toNat) (h2 : c.toNat ≤ 90) :
    fast_string_contains text [k] = false := by
  simp only [fast_string_contains, List.any_cons, List.any_nil, Bool.or_false]
  by_contra h
  rw [Bool.not_eq_false] at h
  simp only [containsSub, List.any_eq_true] at h
  obtain ⟨t, ht, hp⟩ := h
  rw [ List.isPrefixOf_iff_prefix] at hp
  have hct : c ∈ t := hp.subset hc
  have hsuf : t <:+ (strToLower text).data := (List.mem_tails _ _).mp ht
  have hcl : c ∈ text.data.map lowerChar := hsuf.subset hct
  obtain ⟨c0, _, hc0⟩ := List.mem_map.mp hcl
  have hnu := lowerChar_not_upper c0
  rw [hc0] at hnu
  exact hnu ⟨h1, h2⟩

/-- C9 witness at a concrete input. -/
theorem fast_string_contains_case_witness :
    fast_string_contains "Create a list" ["Create"] = false :=
  fast_string_contains_case "Create a list" "Create" 'C' (by decide) (by decide)
    (by decide)

/- ### C10: invariance under lowercasing the text argument -/

/-- C10: each of the three text-matching operations lowercases its text
before matching, and lowercasing is idempotent, so each is invariant
under lowercasing its text argument. -/
theorem lowercase_invariant (text pat : String) (pats : List String)
    (ks : List String) :
    extract_url_from_text (strToLower text) pat = extract_url_from_text text pat ∧
    find_all_patterns (strToLower text) pats = find_all_patterns text pats ∧
    fast_string_contains (strToLower text) ks = fast_string_contains text ks := by
  refine ⟨?_, ?_, ?_⟩
  · cases h : parseRegex pat with
    | error e => simp [extract_url_from_text, h]
    | ok re => simp [extract_url_from_text, h, strToLower_idem]
  · unfold find_all_patterns
    rw [strToLower_idem]
  · unfold fast_string_contains
    rw [strToLower_idem]

/- ### C1: extract_url result plumbing -/

/-- C1: for a syntactically valid pattern, extract_url_from_text never
errors: it returns absence when the pattern does not match the
lowercased text, absence (not the whole match) when the pattern matches
without capturing group 1, and the first capture group of the leftmost
match otherwise. -/
theorem extract_url_spec (text pat : String) (re : RE)
    (h : parseRegex pat = Except.ok re) :
    extract_url_from_text text pat =
      Except.ok ((captures re (strToLower text).data).bind
        (fun r => r.2.2.map (fun sp => sliceStr (strToLower text) sp.1 sp.2))) ∧
    (captures re (strToLower text).data = none →
      extract_url_from_text text pat = Except.ok none) ∧
    (∀ s e, captures re (strToLower text).data = some (s, e, none) →
      extract_url_from_text text pat = Except.ok none) ∧
    (∀ s e i j, captures re (strToLower text).data = some (s, e, some (i, j)) →
      extract_url_from_text text pat =
        Except.ok (some (sliceStr (strToLower text) i j))) := by
  have h1 : extract_url_from_text text pat =
      Except.ok ((captures re (strToLower text).data).bind
        (fun r => r.2.2.map (fun sp => sliceStr (strToLower text) sp.1 sp.2))) := by
    unfold extract_url_from_text
    rw [h]
  refine ⟨h1, ?_, ?_, ?_⟩
  · intro hc
    rw [h1, hc]
    rfl
  · intro s e hc
    rw [h1, hc]
    rfl
  · intro s e i j hc
    rw [h1, hc]
    rfl

/-- The compiled form of the capture-group-free pattern abc. -/
def reAbc : RE := (parseRegex "abc").toOption.getD RE.eps

/-- C1 witness: abc matches inside xabcy but has no capture group, so
extract_url_from_text returns absence rather than the whole match. -/
theorem extract_url_spec_witness :
    extract_url_from_text "xabcy" "abc" = Except.ok none :=
  (extract_url_spec "xabcy" "abc" reAbc (by rfl)).2.2.1 1 4 (by rfl)

/- ### C6: concrete extraction scenario and lowercase normalization -/

/-- The URL-extraction pattern of the source's test. -/
def urlPat : String :=
  "(?:navigate|go|open)\\s+(?:to\\s+)?([^\\s]+\\.[a-z]\x7b2,\x7d)"

/-- C6: the concrete scenario of the spec extracts example.com, and any
successful extraction is lowercase-normalized, because the match runs
on the lowercased copy of the text and the captured substring is a
slice of that copy. -/
theorem extract_url_concrete :
    extract_url_from_text "navigate to example.com for more info" urlPat =
      Except.ok (some "example.com") ∧
    (∀ text pat s, extract_url_from_text text pat = Except.ok (some s) →
      strToLower s = s) := by
  constructor
  · rfl
  · intro text pat s h
    unfold extract_url_from_text at h
    cases hp : parseRegex pat with
    | error e =>
      rw [hp] at h
      cases h
    | ok re =>
      rw [hp] at h
      rw [Except.ok.injEq, Option.bind_eq_some] at h
      obtain ⟨r, _, hmap⟩ := h
      rw [Option.map_eq_some'] at hmap
      obtain ⟨sp, _, heq⟩ := hmap
      rw [← heq]
      exact strToLower_slice text sp.1 sp.2

/-- C6 witness: the extracted value of the concrete scenario is indeed
lowercase-normalized. -/
theorem extract_url_concrete_witness : strToLower "example.com" = "example.com" :=
  extract_url_concrete.2 "navigate to example.com for more info" urlPat
    "example.com" extract_url_concrete.1

/- ### C3: find_all_patterns is all-or-nothing on invalid patterns -/

/-- C3: if every pattern before p compiles and p does not, the whole
call fails with the InvalidPattern error naming p, whatever the earlier
patterns matched; since the call returns an error value, no partial
result list is produced. -/
theorem find_all_patterns_all_or_nothing (text : String) (ps1 : List String)
    (p : String) (ps2 : List String) (e : String)
    (h1 : ∀ q ∈ ps1, (parseRegex q).isOk = true)
    (h2 : parseRegex p = Except.error e) :
    find_all_patterns text (ps1 ++ p :: ps2) =
      Except.error ("Invalid regex pattern " ++ p ++ ": " ++ e) := by
  unfold find_all_patterns
  induction ps1 with
  | nil =>
    simp only [List.nil_append, findAllAux, h2]
  | cons q qs ih =>
    have hq := h1 q (by simp)
    cases hpq : parseRegex q with
    | error e2 =>
      rw [hpq] at hq
      simp [Except.isOk, Except.toBool] at hq
    | ok re =>
      have ih2 := ih (fun r hr => h1 r (by simp [hr]))
      simp only [List.cons_append, findAllAux, hpq]
      cases hc : captures re (strToLower text).data with
      | none => exact ih2
      | some r =>
        show Except.map (fun rest => (q, sliceStr (strToLower text) r.1 r.2.1) :: rest)
            (findAllAux (strToLower text) (qs ++ p :: ps2)) =
          Except.error ("Invalid regex pattern " ++ p ++ ": " ++ e)
        rw [ih2]
        rfl

/-- C3 witness: a valid matching pattern before the invalid one does
not rescue the call. -/
theorem find_all_patterns_all_or_nothing_witness :
    find_all_patterns "abc" (["a"] ++ "(" :: ["b"]) =
      Except.error ("Invalid regex pattern " ++ "(" ++ ": " ++ "unclosed group") :=
  find_all_patterns_all_or_nothing "abc" ["a"] "(" ["b"] "unclosed group"
    (by decide) (by rfl)

/- ### C5: shape of find_all_patterns output -/

/-- C5: a successful find_all_patterns result, projected to its
patterns, is a sublist of the input pattern list (so order is
preserved, duplicates kept, and each pattern contributes at most one
entry), and every entry carries the whole first leftmost match
(group 0) of its pattern in the lowercased text. -/
theorem find_all_patterns_shape (text : String) (pats : List String)
    (rs : List (String × String)) (h : find_all_patterns text pats = Except.ok rs) :
    List.Sublist (rs.map Prod.fst) pats ∧
    ∀ pr ∈ rs, ∃ re s e g, parseRegex pr.1 = Except.ok re ∧
      captures re (strToLower text).data = some (s, e, g) ∧
      pr.2 = sliceStr (strToLower text) s e := by
  unfold find_all_patterns at h
  induction pats generalizing rs with
  | nil =>
    simp only [findAllAux, Except.ok.injEq] at h
    subst h
    exact ⟨List.Sublist.refl _, by simp⟩
  | cons p ps ih =>
    unfold findAllAux at h
    cases hp : parseRegex p with
    | error e =>
      rw [hp] at h
      simp at h
    | ok re =>
      rw [hp] at h
      dsimp only at h
      cases hc : captures re (strToLower text).data with
      | none =>
        rw [hc] at h
        dsimp only at h
        obtain ⟨hsub, hmem⟩ := ih rs h
        exact ⟨hsub.cons p, hmem⟩
      | some r =>
        rw [hc] at h
        dsimp only at h
        cases haux : findAllAux (strToLower text) ps with
        | error e2 =>
          rw [haux] at h
          simp [Except.map] at h
        | ok rest =>
          rw [haux] at h
          simp only [Except.map, Except.ok.injEq] at h
          subst h
          obtain ⟨hsub, hmem⟩ := ih rest haux
          constructor
          · simpa using hsub.cons₂ p
          · intro pr hpr
            rcases List.mem_cons.mp hpr with hpr | hpr
            · subst hpr
              exact ⟨re, r.1, r.2.1, r.2.2, hp, hc, rfl⟩
            · exact hmem pr hpr

/-- C5 witness: at a concrete input the matched patterns form a sublist
of the input list, in order, one entry each; the pattern with a capture
group reports its whole match. -/
theorem find_all_patterns_shape_witness :
    List.Sublist ([("l(l)o", "llo"), ("wor", "wor")].map Prod.fst)
      ["l(l)o", "zzz", "wor"] :=
  (find_all_patterns_shape "hello world" ["l(l)o", "zzz", "wor"]
    [("l(l)o", "llo"), ("wor", "wor")] (by rfl)).1

/-- Decoding the alphabet character of a six-bit value recovers it. -/
theorem sextet_round (s : Nat) (h : s < 64) : sextetOfChar (sextetChar s) = some s := by
  have hall : ∀ t : Fin 64, sextetOfChar (sextetChar t.val) = some t.val := by decide
  exact hall ⟨s, h⟩

/-- Alphabet characters are never the padding character. -/
theorem sextetChar_ne_pad (s : Nat) (h : s < 64) : sextetChar s ≠ '=' := by
  have hall : ∀ t : Fin 64, sextetChar t.val ≠ '=' := by decide
  exact hall ⟨s, h⟩

/-- The encoding is empty exactly for the empty byte list. -/
theorem b64EncodeL_nil_iff (l : List Nat) : b64EncodeL l = [] ↔ l = [] := by
  match l with
  | [] => simp [b64EncodeL]
  | [b1] => simp [b64EncodeL]
  | [b1, b2] => simp [b64EncodeL]
  | b1 :: b2 :: b3 :: rest => simp [b64EncodeL]

/-- Round trip of the base64 codec on byte lists. -/
theorem b64_roundTrip (l : List Nat) (h : ∀ b ∈ l, b < 256) :
    b64DecodeL (b64EncodeL l) = some l := by
  induction l using b64EncodeL.induct with
  | case1 b1 b2 b3 rest ih =>
    have hb1 : b1 < 256 := h b1 (by simp)
    have hb2 : b2 < 256 := h b2 (by simp)
    have hb3 : b3 < 256 := h b3 (by simp)
    have ih2 := ih (fun b hb => h b (by simp [hb]))
    rw [b64EncodeL, b64DecodeL]
    by_cases hr : rest = []
    · subst hr
      have he : b64EncodeL [] = [] := rfl
      rw [he]
      simp only [List.isEmpty_nil, if_true]
      rw [if_neg (fun hand => sextetChar_ne_pad ((b2 % 16) * 4 + b3 / 64) (by omega) hand.1)]
      rw [if_neg (sextetChar_ne_pad (b3 % 64) (by omega))]
      rw [sextet_round (b1 / 4) (by omega), sextet_round ((b1 % 4) * 16 + b2 / 16) (by omega),
        sextet_round ((b2 % 16) * 4 + b3 / 64) (by omega), sextet_round (b3 % 64) (by omega)]
      simp only [Option.some_bind, Option.map_some', Option.some.injEq, List.cons.injEq,
        and_true]
      omega
    · have hne : (b64EncodeL rest).isEmpty = false := by
        cases hq : b64EncodeL rest with
        | nil => exact absurd ((b64EncodeL_nil_iff rest).mp hq) hr
        | cons x xs => rfl
      rw [hne]
      simp only [Bool.false_eq_true, if_false]
      rw [sextet_round (b1 / 4) (by omega), sextet_round ((b1 % 4) * 16 + b2 / 16) (by omega),
        sextet_round ((b2 % 16) * 4 + b3 / 64) (by omega), sextet_round (b3 % 64) (by omega),
        ih2]
      simp only [Option.some_bind, Option.map_some', Option.some.injEq, List.cons.injEq,
        eq_self_iff_true, and_true]
      omega
  | case2 b1 b2 =>
    have hb1 : b1 < 256 := h b1 (by simp)
    have hb2 : b2 < 256 := h b2 (by simp)
    rw [b64EncodeL, b64DecodeL]
    simp only [List.isEmpty_nil, if_true]
    rw [if_neg (fun hand => sextetChar_ne_pad ((b2 % 16) * 4) (by omega) hand.1)]
    rw [sextet_round (b1 / 4) (by omega), sextet_round ((b1 % 4) * 16 + b2 / 16) (by omega),
      sextet_round ((b2 % 16) * 4) (by omega)]
    simp only [Option.some_bind, Option.map_some', Option.some.injEq, List.cons.injEq, and_true]
    omega
  | case3 b1 =>
    have hb1 : b1 < 256 := h b1 (by simp)
    rw [b64EncodeL, b64DecodeL]
    simp only [List.isEmpty_nil, if_true, eq_self_iff_true, and_self]
    rw [sextet_round (b1 / 4) (by omega), sextet_round ((b1 % 4) * 16) (by omega)]
    simp only [Option.some_bind, Option.map_some', Option.some.injEq, List.cons.injEq, and_true]
    omega
  | case4 =>
    rfl

/-- C4: base64_encode_optimized is total and deterministic (a Lean
function), a standard decoder recovers any byte sequence from its
encoding, the empty sequence encodes to the empty string, and the
Hello, World! bytes encode to the expected literal. -/
theorem base64_spec :
    (∀ l : List Nat, (∀ b ∈ l, b < 256) →
      b64DecodeL (base64_encode_optimized l).data = some l) ∧
    base64_encode_optimized [] = "" ∧
    base64_encode_optimized helloBytes = "SGVsbG8sIFdvcmxkIQ==" :=
  ⟨fun l h => b64_roundTrip l h, rfl, by decide⟩

/-- C4 witness: the round trip at a concrete one-byte input. -/
theorem base64_spec_witness :
    b64DecodeL (base64_encode_optimized [72]).data = some [72] :=
  base64_spec.1 [72] (by decide)
